import Mathlib

/-!
Shallow embedding of the `random` package of haskelladdict/go-gsl
(src/src/random/random.go), a Go wrapper around the GSL random number
generator API.  The Go file itself decides the wrapper-level facts
(method signatures, the finalizer registered by `Alloc`, the slice
convenience loops); the behaviour of the underlying GSL routines
(`gsl_rng_set`, `gsl_rng_uniform_int`, `gsl_rng_memcpy`, the state
read/write helpers in `random_wrap.c`) is not part of the repository
source, so those operations are modelled from the specification and
from the documentation comments that accompany each wrapper method in
random.go.  Machine integers are modelled as `Nat` (all quantities
involved are unsigned); the double-precision results of `Uniform` are
modelled as exact rationals.
-/

namespace GoGsl

/-- Error taxonomy of the specification (section 7): NotFound,
TypeMismatch, InvalidRange, IOError, AllocationFailure. -/
inductive RngError
  | NotFound
  | TypeMismatch
  | InvalidRange
  | IOErr
  | AllocationFailure
deriving DecidableEq

/-- Modelled from the spec: the AlgorithmDescriptor (section 3) backing the
Go `RngType` (random.go lines 26-28 wraps `C.gsl_rng_type`, whose definition
is not in the repository).  It carries the identifier, the state size in
"bytes" (buffer cells in this model), the inclusive output range
`[minVal, maxVal]`, the seed primitive `setFn` (seed word to fresh buffer),
the next-raw-value primitive `getFn` (buffer to new buffer and raw value),
the algorithm's historical default seed (spec section 4.2: seed 0 selects
it) and the documented seed modulus (`2^32` for 32-bit seed words). -/
structure RngTypeT where
  name : String
  size : Nat
  minVal : Nat
  maxVal : Nat
  defaultSeed : Nat
  seedMod : Nat
  setFn : Nat → List Nat
  getFn : List Nat → List Nat × Nat

/-- Translated from random.go lines 20-23: `RngState` holds one
instantiated generator: its algorithm descriptor plus the opaque mutable
state buffer (the `C.gsl_rng` allocation). -/
structure RngState where
  rtype : RngTypeT
  buffer : List Nat

/-- Descriptor well-formedness, from the spec's data model (section 3):
min ≤ max, and every raw sample produced by the next-value primitive lies
in `[minVal, maxVal]` inclusive. -/
structure WFT (t : RngTypeT) : Prop where
  minLeMax : t.minVal ≤ t.maxVal
  getInRange : ∀ b, t.minVal ≤ (t.getFn b).2 ∧ (t.getFn b).2 ≤ t.maxVal

/-- Range size R = max − min + 1 of a generator, the number of distinct
raw values (spec section 4.3). -/
def rangeSize (t : RngTypeT) : Nat := t.maxVal - t.minVal + 1

/-- Translated from random.go lines 251-253: `Max` returns the largest raw
value of the underlying generator. -/
def RngState.Max (s : RngState) : Nat := s.rtype.maxVal

/-- Translated from random.go lines 257-259: `Min` returns the smallest raw
value of the underlying generator. -/
def RngState.Min (s : RngState) : Nat := s.rtype.minVal

/-- Translated from random.go lines 267-269: `Size` returns the size of the
rng state buffer. -/
def RngState.Size (s : RngState) : Nat := s.rtype.size

/-- Modelled from the spec: `allocate(descriptor)` (section 4.2) backing
`Alloc` (random.go lines 115-123).  The buffer is initialised per the
algorithm's documented default (GSL seeds a fresh generator with the
default seed). -/
def Alloc (rngType : RngTypeT) : RngState :=
  { rtype := rngType
    buffer := rngType.setFn (rngType.defaultSeed % rngType.seedMod) }

/-- How `Alloc` arranges reclamation of the native buffer. -/
inductive CleanupMode
  | finalizerOnGC
  | explicitCallerRelease
deriving DecidableEq

/-- Translated from random.go lines 115-123: `Alloc` registers a
`runtime.SetFinalizer` closure calling `C.gsl_rng_free`, so the GSL
allocation is reclaimed when the garbage collector finalizes the
`RngState`, not by an explicit caller-triggered release. -/
def allocCleanup : CleanupMode := CleanupMode.finalizerOnGC

/-- Translated from random.go: the complete list of exported functions and
methods of package random. -/
def exportedOps : List String :=
  ["Default", "DefaultSeed", "Alloc", "Set", "EnvSetup", "Get", "GetSlice",
   "Uniform", "UniformSlice", "UniformPos", "UniformInt", "UniformIntSlice",
   "Name", "String", "Max", "Min", "State", "Size", "TypesSetup", "Memcpy",
   "Clone", "Fwrite", "Fread"]

/-- Names an explicit buffer-release operation could carry. -/
def releaseNames : List String := ["Free", "Release", "Destroy", "Close"]

/-- Whether package random exports an explicit release operation. -/
def providesExplicitRelease : Bool :=
  exportedOps.any (fun n => releaseNames.contains n)

/-- Modelled from the spec: `seed(state, seedValue)` (section 4.2) backing
`Set` (random.go lines 141-143), whose documentation (lines 125-140)
records the GSL behaviour: seed 0 selects the algorithm's historical
default seed, and larger seeds are reduced modulo the algorithm's seed
modulus (2^32 for the usual 32-bit seed word).  No error is possible: the
operation is total. -/
def RngState.Set (s : RngState) (seed : Nat) : RngState :=
  { s with
    buffer :=
      s.rtype.setFn
        ((if seed = 0 then s.rtype.defaultSeed else seed) % s.rtype.seedMod) }

/-- Modelled from the spec: `nextRaw(state)` (section 4.3) backing `Get`
(random.go lines 159-161): advance the buffer via the algorithm's
next-value primitive and return the raw sample. -/
def RngState.Get (s : RngState) : Nat × RngState :=
  let p := s.rtype.getFn s.buffer
  (p.2, { s with buffer := p.1 })

/-- Drawing `n` successive raw values: the functional form of the loop in
`GetSlice` (random.go lines 166-172), `slice[i] = s.Get()` in order. -/
def getN (s : RngState) : Nat → List Nat × RngState
  | 0 => ([], s)
  | n + 1 =>
    let p := RngState.Get s
    let q := getN p.2 n
    (p.1 :: q.1, q.2)

/-- State of a generator after `i` raw draws. -/
def stateAfter (s : RngState) (i : Nat) : RngState := (getN s i).2

/-- Value of the `i`-th successive scalar `Get` call (0-based). -/
def ithGet (s : RngState) (i : Nat) : Nat := (RngState.Get (stateAfter s i)).1

/-- Translated from random.go lines 166-172: `GetSlice` builds
`make([]uint64, length)` (which panics for a negative length, modelled as
`none`) and fills it with successive `Get` calls. -/
def RngState.GetSlice (s : RngState) (length : Int) :
    Option (List Nat × RngState) :=
  if length < 0 then none else some (getN s length.toNat)

/-- Modelled from the spec: `uniform(state)` (section 4.3) backing
`Uniform` (random.go lines 177-179): map the raw sample through the
integer-to-float transform `(raw − min) / (max − min + 1)`, modelled in
exact rational arithmetic, giving a value uniform over [0,1). -/
def RngState.Uniform (s : RngState) : ℚ × RngState :=
  let p := RngState.Get s
  (((p.1 : ℚ) - (s.rtype.minVal : ℚ)) /
      ((s.rtype.maxVal : ℚ) - (s.rtype.minVal : ℚ) + 1),
    p.2)

/-- Drawing `n` successive uniform values: the functional form of the loop
in `UniformSlice` (random.go lines 183-189). -/
def uniformN (s : RngState) : Nat → List ℚ × RngState
  | 0 => ([], s)
  | n + 1 =>
    let p := RngState.Uniform s
    let q := uniformN p.2 n
    (p.1 :: q.1, q.2)

/-- Value of the `i`-th successive scalar `Uniform` call (0-based); the
state threading of `Uniform` coincides with that of `Get`. -/
def ithUniform (s : RngState) (i : Nat) : ℚ :=
  (RngState.Uniform (stateAfter s i)).1

/-- Translated from random.go lines 183-189: `UniformSlice` builds
`make([]float64, length)` (panic on negative length, modelled as `none`)
and fills it with successive `Uniform` calls. -/
def RngState.UniformSlice (s : RngState) (length : Int) :
    Option (List ℚ × RngState) :=
  if length < 0 then none else some (uniformN s length.toNat)

/-- Modelled from the spec: `uniformPositive(state)` (section 4.3) backing
`UniformPos` (random.go lines 196-198): repeatedly apply the uniform
transform, discarding exact-zero results, until a strictly positive value
appears.  The retry loop is unbounded in the code; it is modelled with an
explicit fuel parameter, `none` meaning the loop has not yet accepted. -/
def RngState.UniformPos : RngState → Nat → Option (ℚ × RngState)
  | _, 0 => none
  | s, fuel + 1 =>
    let p := RngState.Uniform s
    if p.1 = 0 then RngState.UniformPos p.2 fuel else some p

/-- Result of the GSL-level `gsl_rng_uniform_int`: whether the GSL error
handler was invoked (with GSL_EINVAL), the value returned, and the
generator state afterwards. -/
structure GslIntResult where
  handlerInvoked : Bool
  value : Nat
  state : RngState

/-- Rejection loop of `gsl_rng_uniform_int`: draw a raw value, scale
`(raw − min) / scale` down to a candidate `k`, accept when `k < n`,
otherwise discard and retry (spec section 4.3).  Fuel bounds the modelled
retries; `none` means no acceptance within the fuel. -/
def gslUniformIntLoop (t : RngTypeT) (scale n : Nat) :
    List Nat → Nat → Option (Nat × List Nat)
  | _, 0 => none
  | buf, fuel + 1 =>
    let p := t.getFn buf
    let k := (p.2 - t.minVal) / scale
    if k < n then some (k, p.1) else gslUniformIntLoop t scale n p.1 fuel

/-- Modelled from the spec: `uniformInt(state, n)` (section 4.3) and the
documentation of `UniformInt` in random.go lines 200-212: when n exceeds
the range of the generator the function calls the GSL error handler with
GSL_EINVAL and returns zero with the state untouched; otherwise it scales
down with `scale = R / n` and rejection-samples until the candidate is
below n. -/
def gsl_rng_uniform_int (s : RngState) (n fuel : Nat) : Option GslIntResult :=
  if rangeSize s.rtype < n then some ⟨true, 0, s⟩
  else
    match gslUniformIntLoop s.rtype (rangeSize s.rtype / n) n s.buffer fuel with
    | none => none
    | some (k, buf) => some ⟨false, k, { s with buffer := buf }⟩

/-- Translated from random.go lines 213-215: `UniformInt` returns
`uint64(C.gsl_rng_uniform_int(...))` — a bare value; whether the GSL error
handler fired is not visible in the method's result. -/
def RngState.UniformInt (s : RngState) (limit fuel : Nat) :
    Option (Nat × RngState) :=
  (gsl_rng_uniform_int s limit fuel).map (fun r => (r.value, r.state))

/-- Drawing `n` successive bounded integers: the functional form of the
loop in `UniformIntSlice` (random.go lines 219-225); each scalar call gets
the same fuel, and any fuel exhaustion aborts the model with `none`. -/
def uniformIntN (limit fuel : Nat) : RngState → Nat → Option (List Nat × RngState)
  | s, 0 => some ([], s)
  | s, n + 1 =>
    match RngState.UniformInt s limit fuel with
    | none => none
    | some (v, s') =>
      match uniformIntN limit fuel s' n with
      | none => none
      | some (vs, s'') => some (v :: vs, s'')

/-- Result of the `i`-th successive scalar `UniformInt` call (0-based),
threading the state through the preceding calls. -/
def uniformIntIter (limit fuel : Nat) : RngState → Nat → Option (Nat × RngState)
  | s, 0 => RngState.UniformInt s limit fuel
  | s, i + 1 =>
    match RngState.UniformInt s limit fuel with
    | none => none
    | some (_, s') => uniformIntIter limit fuel s' i

/-- Translated from random.go lines 219-225: `UniformIntSlice` builds
`make([]uint64, length)` (panic on negative length, modelled as `none`)
and fills it with successive `UniformInt` calls. -/
def RngState.UniformIntSlice (s : RngState) (limit fuel : Nat) (length : Int) :
    Option (List Nat × RngState) :=
  if length < 0 then none else uniformIntN limit fuel s length.toNat

/-- Modelled from the spec: `copyInto(src, dest)` (section 4.2), the GSL
`gsl_rng_memcpy` called by `Memcpy`: requires both generators to be of the
same type (identifiers are globally unique, spec section 3, so descriptor
equality is name equality), overwriting dest's buffer on success and
failing with TypeMismatch otherwise. -/
def gsl_rng_memcpy (dest src : RngState) : Except RngError RngState :=
  if dest.rtype.name = src.rtype.name then
    Except.ok { dest with buffer := src.buffer }
  else Except.error RngError.TypeMismatch

/-- Translated from random.go lines 293-295: `Memcpy` calls
`C.gsl_rng_memcpy(dest.state, s.state)` and, per the NOTE on lines
291-292, ignores its return status; the Go method returns nothing, so the
caller observes only the (possibly unchanged) destination state. -/
def RngState.Memcpy (s dest : RngState) : RngState :=
  match gsl_rng_memcpy dest s with
  | Except.ok d => d
  | Except.error _ => dest

/-- Modelled from the spec: `write(state, sink)` (section 4.4), the
`rng_fwrite` helper of random_wrap.c called by `Fwrite` (random.go lines
307-316): emits exactly the state-size bytes of the buffer to the sink,
modelled as the byte list itself. -/
def RngState.Fwrite (s : RngState) : List Nat := s.buffer

/-- Modelled from the spec: `read(state, source)` (section 4.4), the
`rng_fread` helper of random_wrap.c called by `Fread` (random.go lines
324-333): overwrites exactly state-size bytes of the buffer from the
source, failing with IOError on a short (or long) read. -/
def RngState.Fread (s : RngState) (data : List Nat) : Except RngError RngState :=
  if data.length = s.rtype.size then Except.ok { s with buffer := data }
  else Except.error RngError.IOErr

/-- Concrete descriptor used to evaluate the generic theorems on explicit
inputs: a toy generator with raw range [3, 12] (so R = 10), state a single
cell holding the current value, stepped by a small affine map. -/
def testRng : RngTypeT :=
  { name := "test10"
    size := 1
    minVal := 3
    maxVal := 12
    defaultSeed := 4357
    seedMod := 2 ^ 32
    setFn := fun seed => [seed % 10 + 3]
    getFn := fun b =>
      let x := b.headD 3
      let y := (7 * x + 5) % 10 + 3
      ([y], y) }

/-- A second concrete descriptor, of a different algorithm, for the
cross-type copy counterexample. -/
def testRng2 : RngTypeT :=
  { testRng with name := "test10b" }

/-- Concrete generator state of type `testRng`. -/
def testState : RngState := Alloc testRng

/-- Concrete generator state of type `testRng2`. -/
def testState2 : RngState := Alloc testRng2

/-- Concrete descriptor whose next-value primitive always returns the
minimum raw value, so the uniform transform always yields 0: every
`UniformPos` retry is rejected, for any fuel. -/
def constMinRng : RngTypeT :=
  { name := "constmin"
    size := 1
    minVal := 3
    maxVal := 12
    defaultSeed := 1
    seedMod := 2 ^ 32
    setFn := fun _ => [3]
    getFn := fun b => (b, 3) }

/-- Concrete generator state of type `constMinRng`. -/
def constMinState : RngState := Alloc constMinRng

/-! Helper lemmas shared by the claim theorems. -/

theorem testRngWF : WFT testRng := by
  constructor
  · decide
  · intro b
    have h10 : (7 * b.headD 3 + 5) % 10 < 10 := Nat.mod_lt _ (by norm_num)
    constructor
    · simp [testRng]
    · simp only [testRng]
      omega

theorem uniform_bounds (s : RngState) (hwf : WFT s.rtype) :
    0 ≤ (RngState.Uniform s).1 ∧ (RngState.Uniform s).1 < 1 := by
  obtain ⟨hlo, hhi⟩ := hwf.getInRange s.buffer
  have hm : s.rtype.minVal ≤ s.rtype.maxVal := hwf.minLeMax
  have hden : (0 : ℚ) < (s.rtype.maxVal : ℚ) - (s.rtype.minVal : ℚ) + 1 := by
    have : (s.rtype.minVal : ℚ) ≤ (s.rtype.maxVal : ℚ) := by exact_mod_cast hm
    linarith
  have hnum : (0 : ℚ) ≤ ((s.rtype.getFn s.buffer).2 : ℚ) - (s.rtype.minVal : ℚ) := by
    have : (s.rtype.minVal : ℚ) ≤ ((s.rtype.getFn s.buffer).2 : ℚ) := by exact_mod_cast hlo
    linarith
  constructor
  · exact div_nonneg hnum (le_of_lt hden)
  · rw [RngState.Uniform]
    rw [div_lt_one hden]
    have : ((s.rtype.getFn s.buffer).2 : ℚ) ≤ (s.rtype.maxVal : ℚ) := by exact_mod_cast hhi
    simp only [RngState.Get]
    linarith

theorem uniform_state_rtype (s : RngState) :
    (RngState.Uniform s).2.rtype = s.rtype := rfl

/-! Claim theorems. -/

/-- C1, counterexample: `rangeSize testRng = 10 < 11`, yet the Go method
`UniformInt` applied with n = 11 returns the plain value 0 with the state
untouched — no recoverable InvalidRange error result reaches the caller,
the method's result type having no error channel at all. -/
theorem UniformInt_no_recoverable_error_cex :
    rangeSize testRng < 11 ∧
    RngState.UniformInt testState 11 1 = some (0, testState) := by
  constructor
  · decide
  · rfl

/-- C1, amended: for every state and every n exceeding the generator's
range size, the GSL layer invokes its error handler (GSL_EINVAL) and
produces the value zero with the state untouched, and the Go `UniformInt`
wrapper hands that zero to the caller as an ordinary value; no recoverable
error result is surfaced. -/
theorem UniformInt_overrange_handler_and_zero (s : RngState) (n fuel : Nat)
    (h : rangeSize s.rtype < n) :
    gsl_rng_uniform_int s n fuel = some ⟨true, 0, s⟩ ∧
    RngState.UniformInt s n fuel = some (0, s) := by
  have hg : gsl_rng_uniform_int s n fuel = some ⟨true, 0, s⟩ := by
    rw [gsl_rng_uniform_int, if_pos h]
  refine ⟨hg, ?_⟩
  rw [RngState.UniformInt, hg]
  rfl

/-- C1, witness for the amended theorem at the concrete input
(testState, n = 11, fuel = 1). -/
theorem UniformInt_overrange_witness :
    rangeSize testState.rtype < 11 ∧
    (gsl_rng_uniform_int testState 11 1 = some ⟨true, 0, testState⟩ ∧
     RngState.UniformInt testState 11 1 = some (0, testState)) :=
  ⟨by decide, UniformInt_overrange_handler_and_zero testState 11 1 (by decide)⟩

/-- C3, counterexample: `testState` and `testState2` are bound to
different algorithms; the GSL layer refuses the copy with TypeMismatch,
but the Go `Memcpy` call returns the destination unchanged and surfaces
no error to the caller (its result carries no error channel). -/
theorem Memcpy_error_not_surfaced_cex :
    testState.rtype.name ≠ testState2.rtype.name ∧
    gsl_rng_memcpy testState2 testState = Except.error RngError.TypeMismatch ∧
    RngState.Memcpy testState testState2 = testState2 := by
  refine ⟨by decide, ?_, ?_⟩ <;> rfl

/-- C3, amended: when the two generators' algorithms differ, the GSL-level
copy fails with TypeMismatch and the Go `Memcpy` wrapper — which discards
that status — leaves the destination buffer untouched and surfaces no
error; only when the algorithms agree is dest's buffer overwritten with
src's. -/
theorem Memcpy_type_guard (src dest : RngState) :
    (src.rtype.name ≠ dest.rtype.name →
       gsl_rng_memcpy dest src = Except.error RngError.TypeMismatch ∧
       RngState.Memcpy src dest = dest) ∧
    (src.rtype.name = dest.rtype.name →
       RngState.Memcpy src dest = { dest with buffer := src.buffer }) := by
  constructor
  · intro hne
    have hg : gsl_rng_memcpy dest src = Except.error RngError.TypeMismatch := by
      rw [gsl_rng_memcpy, if_neg (fun h => hne h.symm)]
    refine ⟨hg, ?_⟩
    rw [RngState.Memcpy, hg]
  · intro heq
    have hg : gsl_rng_memcpy dest src = Except.ok { dest with buffer := src.buffer } := by
      rw [gsl_rng_memcpy, if_pos heq.symm]
    rw [RngState.Memcpy, hg]

/-- C3, witness for the amended theorem at the concrete cross-type pair
(testState, testState2) and at the same-type pair (testState, testState). -/
theorem Memcpy_type_guard_witness :
    testState.rtype.name ≠ testState2.rtype.name ∧
    (gsl_rng_memcpy testState2 testState = Except.error RngError.TypeMismatch ∧
     RngState.Memcpy testState testState2 = testState2) ∧
    RngState.Memcpy testState testState =
      { testState with buffer := testState.buffer } :=
  ⟨by decide, (Memcpy_type_guard testState testState2).1 (by decide),
    (Memcpy_type_guard testState testState).2 rfl⟩

/-- C4, counterexample: it is false that package random both provides an
explicit release operation and avoids finalizer-based cleanup — `Alloc`
registers a GC finalizer and no exported operation releases the buffer. -/
theorem release_is_finalizer_cex :
    ¬ (providesExplicitRelease = true ∧
       allocCleanup ≠ CleanupMode.finalizerOnGC) := by
  decide

/-- C4, amended: reclamation of the GSL buffer is finalizer-based and
GC-triggered — `Alloc` registers a `runtime.SetFinalizer` calling
`gsl_rng_free` — and the package exports no explicit release operation,
so release is neither immediate nor caller-triggered. -/
theorem alloc_finalizer_no_release :
    allocCleanup = CleanupMode.finalizerOnGC ∧
    providesExplicitRelease = false := by
  decide

/-- C5: for any algorithm t and any two generator states bound to t —
however they were allocated or previously advanced — seeding both with the
same seed makes the next k raw `Get` values bit-identical: the output
stream is a deterministic function of the (algorithm, seed) pair. -/
theorem seed_determinism (t : RngTypeT) (s1 s2 : RngState)
    (h1 : s1.rtype = t) (h2 : s2.rtype = t) (seed k : Nat) :
    (getN (RngState.Set s1 seed) k).1 = (getN (RngState.Set s2 seed) k).1 := by
  cases s1
  cases s2
  cases h1
  cases h2
  rfl

/-- C5, witness: two differently-prepared states of type `testRng`,
seeded with 7, agree on their next 5 raw values. -/
theorem seed_determinism_witness :
    (Alloc testRng).rtype = testRng ∧
    (getN (RngState.Set (Alloc testRng) 7) 5).1 =
      (getN (RngState.Set { rtype := testRng, buffer := [0] } 7) 5).1 :=
  ⟨rfl, seed_determinism testRng (Alloc testRng)
    { rtype := testRng, buffer := [0] } rfl rfl 7 5⟩

/-- C6: writing a state's buffer with `Fwrite` and reading it back with
`Fread` into a freshly allocated state of the same algorithm succeeds and
reproduces the exact state, so the next k raw outputs equal those the
original would have produced from the point of writing. -/
theorem fwrite_fread_roundtrip (s : RngState) (t : RngTypeT) (h : s.rtype = t)
    (hlen : s.buffer.length = t.size) (k : Nat) :
    RngState.Fread (Alloc t) (RngState.Fwrite s) =
      Except.ok { rtype := t, buffer := s.buffer } ∧
    (getN { rtype := t, buffer := s.buffer } k).1 = (getN s k).1 := by
  constructor
  · rw [RngState.Fread, RngState.Fwrite]
    simp only [Alloc]
    rw [if_pos hlen]
  · cases s
    cases h
    rfl

/-- C6, witness at the concrete state `testState` with k = 4. -/
theorem fwrite_fread_roundtrip_witness :
    testState.buffer.length = testRng.size ∧
    (RngState.Fread (Alloc testRng) (RngState.Fwrite testState) =
       Except.ok { rtype := testRng, buffer := testState.buffer } ∧
     (getN { rtype := testRng, buffer := testState.buffer } 4).1 =
       (getN testState 4).1) :=
  ⟨by decide, fwrite_fread_roundtrip testState testRng rfl (by decide) 4⟩

/-- C7: for a well-formed algorithm, `Uniform` always yields a value in
the half-open interval [0,1) (in the exact-rational model of the
integer-to-float transform), and 0 is reachable: whenever the raw draw
equals the generator's minimum, the result is exactly 0. -/
theorem Uniform_in_unit_interval (t : RngTypeT) (hwf : WFT t) :
    (∀ s : RngState, s.rtype = t →
       0 ≤ (RngState.Uniform s).1 ∧ (RngState.Uniform s).1 < 1) ∧
    (∀ s : RngState, s.rtype = t → (t.getFn s.buffer).2 = t.minVal →
       (RngState.Uniform s).1 = 0) := by
  constructor
  · intro s hs
    exact uniform_bounds s (hs ▸ hwf)
  · intro s hs hmin
    rw [RngState.Uniform]
    simp only [RngState.Get, hs, hmin]
    rw [sub_self, zero_div]

/-- C7, witness: at the concrete state with buffer [5] the raw draw is the
minimum 3, so `Uniform` evaluates to exactly 0, inside [0,1). -/
theorem Uniform_in_unit_interval_witness :
    (0 ≤ (RngState.Uniform { rtype := testRng, buffer := [5] }).1 ∧
     (RngState.Uniform { rtype := testRng, buffer := [5] }).1 < 1) ∧
    (RngState.Uniform { rtype := testRng, buffer := [5] }).1 = 0 :=
  ⟨(Uniform_in_unit_interval testRng testRngWF).1 _ rfl,
   (Uniform_in_unit_interval testRng testRngWF).2 _ rfl (by decide)⟩

/-- C8: for a well-formed algorithm, whenever the (fuel-bounded model of
the) rejection loop of `UniformPos` returns a value, that value is
strictly inside (0,1) — in particular never exactly 0; and the retry count
admits no bound: on the degenerate generator `constMinRng`, whose uniform
transform always yields 0, the loop accepts for no amount of fuel. -/
theorem UniformPos_strictly_positive (t : RngTypeT) (hwf : WFT t) :
    (∀ (s : RngState) (fuel : Nat) (x : ℚ) (s' : RngState), s.rtype = t →
       RngState.UniformPos s fuel = some (x, s') → 0 < x ∧ x < 1) ∧
    (∀ fuel, RngState.UniformPos constMinState fuel = none) := by
  constructor
  · intro s fuel
    induction fuel generalizing s with
    | zero => intro x s' _ hx; cases hx
    | succ n ih =>
      intro x s' hs hx
      rw [RngState.UniformPos] at hx
      by_cases h0 : (RngState.Uniform s).1 = 0
      · rw [if_pos h0] at hx
        exact ih (RngState.Uniform s).2 x s'
          ((uniform_state_rtype s).trans hs) hx
      · rw [if_neg h0] at hx
        obtain ⟨hb1, hb2⟩ := uniform_bounds s (hs ▸ hwf)
        have hx1 : (RngState.Uniform s).1 = x := congrArg Prod.fst (Option.some.inj hx)
        rw [hx1] at hb1 hb2 h0
        exact ⟨lt_of_le_of_ne hb1 (fun h => h0 h.symm), hb2⟩
  · intro fuel
    induction fuel with
    | zero => rfl
    | succ n ih =>
      rw [RngState.UniformPos]
      have h0 : (RngState.Uniform constMinState).1 = 0 := by
        rw [RngState.Uniform]
        simp only [RngState.Get, constMinState, constMinRng, Alloc]
        norm_num
      rw [if_pos h0]
      have hst : (RngState.Uniform constMinState).2 = constMinState := rfl
      rw [hst]
      exact ih

/-- C8, witness: at `testState` with fuel 1 the loop accepts the value
1/2, and the theorem places it strictly inside (0,1). -/
theorem UniformPos_strictly_positive_witness :
    (0 : ℚ) < 1 / 2 ∧ (1 : ℚ) / 2 < 1 :=
  (UniformPos_strictly_positive testRng testRngWF).1 testState 1 (1 / 2)
    { rtype := testRng, buffer := [8] } rfl (by
      simp only [RngState.UniformPos, RngState.Uniform, RngState.Get,
        testState, testRng, Alloc]
      norm_num)

/-- C9: seeding conventions of `Set`: seed 0 selects the algorithm's
historical default seed (the two calls produce identical states); any seed
is silently reduced modulo the algorithm's documented seed modulus (no
error is ever raised — `Set` is total); for algorithms with a 32-bit seed
word the modulus is 2^32. -/
theorem Set_seed_conventions (s : RngState) :
    RngState.Set s 0 = RngState.Set s s.rtype.defaultSeed ∧
    (∀ seed, seed % s.rtype.seedMod ≠ 0 →
       RngState.Set s seed = RngState.Set s (seed % s.rtype.seedMod)) ∧
    (s.rtype.seedMod = 2 ^ 32 → ∀ seed, seed % 2 ^ 32 ≠ 0 →
       RngState.Set s seed = RngState.Set s (seed % 2 ^ 32)) := by
  have main : ∀ seed, seed % s.rtype.seedMod ≠ 0 →
      RngState.Set s seed = RngState.Set s (seed % s.rtype.seedMod) := by
    intro seed hne
    have hs0 : seed ≠ 0 := by
      intro h
      rw [h, Nat.zero_mod] at hne
      exact hne rfl
    have hm0 : seed % s.rtype.seedMod ≠ 0 := hne
    rw [RngState.Set, RngState.Set, if_neg hs0, if_neg hm0,
      Nat.mod_mod_of_dvd seed (dvd_refl s.rtype.seedMod)]
  refine ⟨?_, main, ?_⟩
  · rw [RngState.Set, RngState.Set, if_pos rfl, ite_self]
  · intro hmod seed hne
    rw [← hmod] at hne ⊢
    exact main seed hne

/-- C9, witness at `testState` (seed modulus 2^32, default seed 4357):
seed 0 matches seeding with 4357, and seed 4357 + 2^32 reduces to 4357. -/
theorem Set_seed_conventions_witness :
    (4357 + 2 ^ 32) % 2 ^ 32 ≠ 0 ∧
    RngState.Set testState 0 = RngState.Set testState testState.rtype.defaultSeed ∧
    RngState.Set testState (4357 + 2 ^ 32) =
      RngState.Set testState ((4357 + 2 ^ 32) % testState.rtype.seedMod) :=
  ⟨by decide, (Set_seed_conventions testState).1,
    (Set_seed_conventions testState).2.1 (4357 + 2 ^ 32) (by decide)⟩

theorem gslUniformIntLoop_lt (t : RngTypeT) (scale n : Nat) :
    ∀ (fuel : Nat) (buf : List Nat) (k : Nat) (b' : List Nat),
      gslUniformIntLoop t scale n buf fuel = some (k, b') → k < n := by
  intro fuel
  induction fuel with
  | zero => intro buf k b' h; cases h
  | succ m ih =>
    intro buf k b' h
    simp only [gslUniformIntLoop] at h
    split at h
    · rename_i hcond
      have h1 : ((t.getFn buf).2 - t.minVal) / scale = k :=
        congrArg Prod.fst (Option.some.inj h)
      exact h1 ▸ hcond
    · exact ih (t.getFn buf).1 k b' h

/-- C2: for a well-formed algorithm and any n with 1 ≤ n ≤ R = max−min+1:
(i) `gsl_rng_uniform_int` never takes the error branch and any value it
returns lies in [0, n−1]; (ii) with scale = R / n, the quantity n·scale is
the largest multiple of n not exceeding R; (iii) a shifted raw value x is
accepted by the rejection loop exactly when it lies below that largest
multiple (the remainder band above it is discarded and retried); and
(iv) each result k in [0, n−1] is hit by exactly `scale` of the R possible
shifted raw values, so all n results are produced with exactly equal
probability — not a naive modulo; and (v) every shifted raw value the
generator can produce lies in [0, R), so the counting in (iv) ranges over
exactly the values the rejection loop can see. -/
theorem UniformInt_rejection_unbiased (t : RngTypeT) (hwf : WFT t) (n : Nat)
    (h1 : 1 ≤ n) (h2 : n ≤ rangeSize t) :
    (∀ (s : RngState) (fuel : Nat) (r : GslIntResult), s.rtype = t →
       gsl_rng_uniform_int s n fuel = some r →
       r.handlerInvoked = false ∧ r.value < n) ∧
    (n * (rangeSize t / n) ≤ rangeSize t ∧
     rangeSize t < n * (rangeSize t / n) + n) ∧
    (∀ x, x / (rangeSize t / n) < n ↔ x < n * (rangeSize t / n)) ∧
    (∀ k, k < n →
       ((Finset.range (rangeSize t)).filter
           (fun x => x / (rangeSize t / n) = k)).card = rangeSize t / n) ∧
    (∀ buf : List Nat, (t.getFn buf).2 - t.minVal < rangeSize t) := by
  have hscale : 0 < rangeSize t / n := Nat.div_pos h2 h1
  refine ⟨?_, ⟨Nat.mul_div_le (rangeSize t) n, ?_⟩, ?_, ?_, ?_⟩
  · intro s fuel r hs hr
    rw [gsl_rng_uniform_int, hs, if_neg (not_lt.2 h2)] at hr
    cases hloop : gslUniformIntLoop t (rangeSize t / n) n s.buffer fuel with
    | none => rw [hloop] at hr; simp at hr
    | some q =>
      obtain ⟨k, buf⟩ := q
      rw [hloop] at hr
      have hr' : some (⟨false, k, { rtype := t, buffer := buf }⟩ : GslIntResult) =
          some r := hr
      obtain rfl := Option.some.inj hr'
      exact ⟨rfl, gslUniformIntLoop_lt t (rangeSize t / n) n fuel s.buffer k buf hloop⟩
  · have hdm := Nat.div_add_mod (rangeSize t) n
    have hmlt : rangeSize t % n < n := Nat.mod_lt _ h1
    calc rangeSize t = n * (rangeSize t / n) + rangeSize t % n := hdm.symm
      _ < n * (rangeSize t / n) + n := Nat.add_lt_add_left hmlt _
  · intro x
    exact Nat.div_lt_iff_lt_mul hscale
  · intro k hk
    have hIco : (Finset.range (rangeSize t)).filter
        (fun x => x / (rangeSize t / n) = k)
        = Finset.Ico (k * (rangeSize t / n)) ((k + 1) * (rangeSize t / n)) := by
      ext x
      simp only [Finset.mem_filter, Finset.mem_range, Finset.mem_Ico]
      constructor
      · rintro ⟨hxR, hdiv⟩
        constructor
        · calc k * (rangeSize t / n)
              = x / (rangeSize t / n) * (rangeSize t / n) := by rw [hdiv]
            _ ≤ x := Nat.div_mul_le_self x _
        · have hx : x < (x / (rangeSize t / n) + 1) * (rangeSize t / n) := by
            have hms : x % (rangeSize t / n) < rangeSize t / n :=
              Nat.mod_lt _ hscale
            calc x = (rangeSize t / n) * (x / (rangeSize t / n)) +
                  x % (rangeSize t / n) := (Nat.div_add_mod x _).symm
              _ < (rangeSize t / n) * (x / (rangeSize t / n)) +
                  (rangeSize t / n) := Nat.add_lt_add_left hms _
              _ = (x / (rangeSize t / n) + 1) * (rangeSize t / n) := by ring
          rw [hdiv] at hx
          exact hx
      · rintro ⟨hlo, hhi⟩
        refine ⟨?_, Nat.div_eq_of_lt_le hlo hhi⟩
        calc x < (k + 1) * (rangeSize t / n) := hhi
          _ ≤ n * (rangeSize t / n) := Nat.mul_le_mul_right _ hk
          _ ≤ rangeSize t := Nat.mul_div_le _ n
    rw [hIco, Nat.card_Ico, Nat.succ_mul, Nat.add_sub_cancel_left]
  · intro buf
    obtain ⟨hlo, hhi⟩ := hwf.getInRange buf
    rw [rangeSize]
    omega

/-- C2, witness at the concrete algorithm `testRng` (R = 10) with n = 3,
which does not divide 10: each of the 3 results is hit by exactly
`10 / 3 = 3` of the shifted raw values. -/
theorem UniformInt_rejection_unbiased_witness :
    (1 ≤ 3 ∧ 3 ≤ rangeSize testRng) ∧
    (∀ k, k < 3 →
       ((Finset.range (rangeSize testRng)).filter
           (fun x => x / (rangeSize testRng / 3) = k)).card =
         rangeSize testRng / 3) :=
  ⟨by decide,
    (UniformInt_rejection_unbiased testRng testRngWF 3 (by decide) (by decide)).2.2.2.1⟩

theorem getN_length : ∀ (n : Nat) (s : RngState), (getN s n).1.length = n := by
  intro n
  induction n with
  | zero => intro s; rfl
  | succ m ih => intro s; simp only [getN, List.length_cons, ih]

theorem getN_get :
    ∀ (n i : Nat), i < n → ∀ (s : RngState),
      (getN s n).1[i]? = some (ithGet s i) := by
  intro n
  induction n with
  | zero => intro i hi; omega
  | succ m ih =>
    intro i hi s
    cases i with
    | zero =>
      show ((RngState.Get s).1 :: (getN (RngState.Get s).2 m).1)[0]? =
        some (ithGet s 0)
      rw [List.getElem?_cons_zero]
      rfl
    | succ j =>
      show ((RngState.Get s).1 :: (getN (RngState.Get s).2 m).1)[j + 1]? =
        some (ithGet s (j + 1))
      rw [List.getElem?_cons_succ, ih j (by omega) (RngState.Get s).2]
      rfl

theorem uniformN_length : ∀ (n : Nat) (s : RngState), (uniformN s n).1.length = n := by
  intro n
  induction n with
  | zero => intro s; rfl
  | succ m ih => intro s; simp only [uniformN, List.length_cons, ih]

theorem uniformN_get :
    ∀ (n i : Nat), i < n → ∀ (s : RngState),
      (uniformN s n).1[i]? = some (ithUniform s i) := by
  intro n
  induction n with
  | zero => intro i hi; omega
  | succ m ih =>
    intro i hi s
    cases i with
    | zero =>
      show ((RngState.Uniform s).1 :: (uniformN (RngState.Get s).2 m).1)[0]? =
        some (ithUniform s 0)
      rw [List.getElem?_cons_zero]
      rfl
    | succ j =>
      show ((RngState.Uniform s).1 :: (uniformN (RngState.Get s).2 m).1)[j + 1]? =
        some (ithUniform s (j + 1))
      rw [List.getElem?_cons_succ, ih j (by omega) (RngState.Get s).2]
      rfl

theorem uniformIntN_sound (limit fuel : Nat) :
    ∀ (n : Nat) (s : RngState) (p : List Nat × RngState),
      uniformIntN limit fuel s n = some p →
      p.1.length = n ∧
      ∀ i, i < n → ∃ v st,
        uniformIntIter limit fuel s i = some (v, st) ∧ p.1[i]? = some v := by
  intro n
  induction n with
  | zero =>
    intro s p h
    obtain rfl := Option.some.inj h
    exact ⟨rfl, fun i hi => absurd hi (by omega)⟩
  | succ m ih =>
    intro s p h
    rw [uniformIntN] at h
    cases h1 : RngState.UniformInt s limit fuel with
    | none => rw [h1] at h; simp at h
    | some q =>
      obtain ⟨v, s'⟩ := q
      rw [h1] at h
      have hred : (match uniformIntN limit fuel s' m with
          | none => none
          | some (vs, s'') => some (v :: vs, s'')) = some p := h
      cases h2 : uniformIntN limit fuel s' m with
      | none => rw [h2] at hred; simp at hred
      | some pr =>
        obtain ⟨vs, s''⟩ := pr
        rw [h2] at hred
        have h' : some ((v :: vs, s'') : List Nat × RngState) = some p := hred
        obtain rfl := Option.some.inj h'
        obtain ⟨hlen, helts⟩ := ih s' (vs, s'') h2
        refine ⟨by simpa using hlen, ?_⟩
        intro i hi
        cases i with
        | zero =>
          refine ⟨v, s', ?_, by simp⟩
          show RngState.UniformInt s limit fuel = some (v, s')
          exact h1
        | succ j =>
          obtain ⟨w, st, hw, he⟩ := helts j (by omega)
          refine ⟨w, st, ?_, ?_⟩
          · rw [uniformIntIter, h1]
            exact hw
          · simpa using he

/-- C10: each batch operation mirrors its scalar operation: a negative
length makes all three slice functions panic (modelled as `none`); a
nonnegative length yields a sequence of exactly `length` elements whose
i-th entry equals the i-th successive scalar call (`Get`, `Uniform`, or
`UniformInt` with the state threaded through the preceding calls). -/
theorem slice_ops_match_scalar (s : RngState) (limit fuel : Nat) (len : Int) :
    (len < 0 →
       RngState.GetSlice s len = none ∧
       RngState.UniformSlice s len = none ∧
       RngState.UniformIntSlice s limit fuel len = none) ∧
    (0 ≤ len →
       ∃ p, RngState.GetSlice s len = some p ∧ p.1.length = len.toNat ∧
         ∀ i, i < len.toNat → p.1[i]? = some (ithGet s i)) ∧
    (0 ≤ len →
       ∃ p, RngState.UniformSlice s len = some p ∧ p.1.length = len.toNat ∧
         ∀ i, i < len.toNat → p.1[i]? = some (ithUniform s i)) ∧
    (∀ p, RngState.UniformIntSlice s limit fuel len = some p →
       p.1.length = len.toNat ∧
       ∀ i, i < len.toNat → ∃ v st,
         uniformIntIter limit fuel s i = some (v, st) ∧ p.1[i]? = some v) := by
  refine ⟨?_, ?_, ?_, ?_⟩
  · intro h
    refine ⟨?_, ?_, ?_⟩
    · rw [RngState.GetSlice, if_pos h]
    · rw [RngState.UniformSlice, if_pos h]
    · rw [RngState.UniformIntSlice, if_pos h]
  · intro h
    refine ⟨getN s len.toNat, ?_, getN_length len.toNat s, fun i hi => getN_get len.toNat i hi s⟩
    rw [RngState.GetSlice, if_neg (not_lt.2 h)]
  · intro h
    refine ⟨uniformN s len.toNat, ?_, uniformN_length len.toNat s,
      fun i hi => uniformN_get len.toNat i hi s⟩
    rw [RngState.UniformSlice, if_neg (not_lt.2 h)]
  · intro p hp
    rw [RngState.UniformIntSlice] at hp
    by_cases hl : len < 0
    · rw [if_pos hl] at hp; cases hp
    · rw [if_neg hl] at hp
      exact uniformIntN_sound limit fuel len.toNat s p hp

/-- C10, witness at the concrete state `testState` with length 2: the raw
batch has exactly 2 entries, each equal to the corresponding successive
scalar `Get`. -/
theorem slice_ops_match_scalar_witness :
    (0 : Int) ≤ 2 ∧
    (∃ p, RngState.GetSlice testState 2 = some p ∧
       p.1.length = (2 : Int).toNat ∧
       ∀ i, i < (2 : Int).toNat → p.1[i]? = some (ithGet testState i)) :=
  ⟨by decide, (slice_ops_match_scalar testState 3 2 2).2.1 (by decide)⟩

end GoGsl
